import Mathlib

/-!
# Verification of the SHOWROOM event room aggregation pipeline (`src/app.py`)

This file gives a shallow embedding, in Lean 4, of the core pipeline of
`src/app.py`:

* the paginated room fetcher `fetch_all_room_data` (lines 16-82),
* the organizer directory loader `fetch_organizer_list` (lines 86-119),
* the event-identifier parser, organizer join, dedupe and sort steps of
  `main` (lines 122-206).

Python/pandas values are modelled as follows:

* JSON scalar values reaching the record extraction are modelled by `JVal`
  (null / number / string); JSON `null` and an absent key both surface as
  Python `None` from `dict.get`, which `JVal.null` plays the role of.
  Identifiers are canonically integers transported as strings (spec §3),
  so numbers are modelled as `Int` and the numeric parsing done by
  `pd.to_numeric(errors=coerce)` is modelled by `String.toInt?`
  (integer-form strings parse, anything else is NaN = `none`).
* An HTTP page request is modelled as `Except String PageResponse`:
  `.error` covers a transport failure, a non-success status raised by
  `raise_for_status`, and a JSON parse failure — all of which hit the same
  `except` clauses of the loop body and break out of pagination.
* The `while True` pagination loop is modelled by the fuel-indexed
  `fetchLoop`; termination claims are phrased as fuel-independence.
* `st.cache_data` makes a fetch for a fixed event id deterministic within
  a run, so a server is a pure function from event id and page to response.
* The pandas dedupe block (lines 184-193) groups by `room_id` (group keys
  are sorted lexicographically by `groupby`), and for each group
  `idxmax` selects the row index of the first occurrence of the maximal
  `event_id_num`, skipping NaN; when a group consists only of NaN keys,
  `idxmax` raises (pandas ≥ 2.1 raises `ValueError`; older versions
  produce a NaN label that makes the subsequent `.loc` fail), which is
  modelled by `dedupeByRoom` returning `none` (an uncaught exception).
* `sort_values(by=room_id_num)` (lines 196-198) with the default
  `na_position` places NaN keys after all numeric keys, keeping the NaN
  rows' relative order; the order of rows with equal numeric keys is not
  specified by the quicksort default, and the embedding determinises it
  with a stable insertion sort — no claim below depends on that order.
-/

namespace SRApp

/-- A JSON scalar value as seen by the Python record extraction after
`json()` decoding: `null` (also standing for Python `None` from a missing
key), an integer number, or a string.  Objects/arrays/booleans never occur
in the fields the claims are about. -/
inductive JVal where
  | null : JVal
  | num : Int → JVal
  | str : String → JVal
deriving DecidableEq, Repr

/-- Python truthiness of a `JVal`: `None`, `0` and `""` are falsy. -/
def JVal.truthy : JVal → Bool
  | .null => false
  | .num n => n != 0
  | .str s => s != ""

/-- Python `str()` coercion of a `JVal` (`str(None) = "None"`). -/
def JVal.toStr : JVal → String
  | .null => "None"
  | .num n => toString n
  | .str s => s

/-- One entry of the `list` array of a page response.  A field is `none`
when the key is absent from the JSON object.  `event_entry` is `none` when
the `event_entry` key is absent, `some none` when it is present but has no
`event_id` key, and `some (some v)` when `event_entry.event_id = v`.
`event_id_top` models a top-level `event_id` key, which `app.py` never
reads (the nested one is used instead). -/
structure RoomEntry where
  room_id : Option JVal
  room_name : Option JVal
  organizer_id : Option JVal
  event_entry : Option (Option JVal)
  event_id_top : Option JVal
deriving DecidableEq, Repr

/-- A collected room record, all fields coerced to strings
(`app.py` lines 56-61); `organizer_name` is filled in by the join step. -/
structure RoomRecord where
  room_id : String
  event_id : String
  room_name : String
  organizer_id : String
  organizer_name : String := ""
deriving DecidableEq, Repr

/-- Extraction of one entry of a page (`app.py` lines 45-61): read
`room_id` (top level), `room_name` (default `""`), `organizer_id`
(default `0`), and `event_id` from the nested `event_entry`; append a
record only when `room_id` and the nested `event_id` are truthy. -/
def processRoom (e : RoomEntry) : Option RoomRecord :=
  let room_id := e.room_id.getD .null
  let room_name := e.room_name.getD (.str "")
  let organizer_id := e.organizer_id.getD (.num 0)
  let current_event_id := (e.event_entry.getD none).getD .null
  if room_id.truthy && current_event_id.truthy then
    some { room_id := room_id.toStr
           event_id := current_event_id.toStr
           room_name := room_name.toStr
           organizer_id := organizer_id.toStr }
  else
    none

/-- The `for room_data in room_list` loop of `app.py` lines 45-61:
entries failing the required-fields check are skipped, the rest of the
page is still processed. -/
def processPage (entries : List RoomEntry) : List RoomRecord :=
  entries.filterMap processRoom

/-- One page response after JSON decoding: `list` is the array under the
`list` key (`data.get("list", [])`; an absent or `null` value behaves
exactly like the empty list, both terminating pagination, so it is
modelled as `[]`), and `next_page` is the value under `next_page`
(absent or `null` modelled as `none`). -/
structure PageResponse where
  list : List RoomEntry
  next_page : Option Int
deriving DecidableEq, Repr

/-- A server for one event: page number to response, where `.error` is a
transport failure / non-success HTTP status / JSON parse failure. -/
abbrev Server := Int → Except String PageResponse

/-- The `while True` pagination loop of `fetch_all_room_data`
(`app.py` lines 26-80), with explicit fuel standing for the number of
remaining iterations and `acc` for the records collected so far
(`all_rooms`).  Exactly as in the source: an exception returns `acc`
(the `except` clauses `break`); an empty `list` breaks before processing;
otherwise the page's entries are appended and `next_page` is consulted —
absent/null or equal to the current page breaks the loop, anything else
becomes the next page. -/
def fetchLoop (server : Server) : Nat → Int → List RoomRecord → List RoomRecord
  | 0, _, acc => acc
  | fuel + 1, page, acc =>
    match server page with
    | .error _ => acc
    | .ok resp =>
      if resp.list.isEmpty then acc
      else
        let acc2 := acc ++ processPage resp.list
        match resp.next_page with
        | none => acc2
        | some np => if np = page then acc2 else fetchLoop server fuel np acc2

/-- `fetch_all_room_data` (`app.py` lines 16-82): run the pagination loop
from page 1 with an empty accumulator. -/
def fetch_all_room_data (server : Server) (fuel : Nat) : List RoomRecord :=
  fetchLoop server fuel 1 []

/-- The multi-event collector (`app.py` lines 154-158): fetch every
requested event id in order and concatenate the results. -/
def collectEvents (srv : String → Server) (fuel : Nat) (ids : List String) :
    List RoomRecord :=
  ids.flatMap fun e => fetch_all_room_data (srv e) fuel

/-- The event-identifier parser of `main` (`app.py` lines 139-141), on an
already-split token list (the `re.split` over newlines/commas is
abstracted away): strip each token and keep it exactly when the stripped
token is non-empty and all digits (`str.isdigit`). -/
def parseEventIds (raw : List String) : List String :=
  raw.filterMap fun e =>
    let t := e.trim
    if !t.isEmpty && t.all Char.isDigit then some t else none

/-- The organizer directory CSV after header-row parsing with `dtype=str`
(`app.py` line 101): the number of columns of the header, and for each
data row its first two cells (id, name).  Rows beyond two columns are
ignored by the mapping construction. -/
structure CsvTable where
  numCols : Nat
  rows : List (String × String)
deriving DecidableEq, Repr

/-- The dictionary built by
`pd.Series(df.iloc[:, 1].values, index=df.iloc[:, 0]).to_dict()`
(`app.py` line 107): on duplicate ids the last row wins, which is the
first match in the reversed row list. -/
def organizerLookup (rows : List (String × String)) (k : String) :
    Option String :=
  rows.reverse.lookup k

/-- `fetch_organizer_list` (`app.py` lines 86-119): a network, decode or
CSV parse failure returns the empty mapping; a table with fewer than two
columns returns the empty mapping; otherwise the id→name rows (to be read
through `organizerLookup`, i.e. last-row-wins). -/
def fetch_organizer_list : Except String CsvTable → List (String × String)
  | .error _ => []
  | .ok t => if t.numCols ≥ 2 then t.rows else []

/-- The organizer join of `main` (`app.py` lines 169-176): when the
directory is non-empty, `organizer_name` is set to the mapped value of
`organizer_id` with unmapped ids becoming `""` (`map` + `fillna`);
when the directory is empty, the whole column is set to `""`. -/
def joinOrganizer (rows : List (String × String)) (rs : List RoomRecord) :
    List RoomRecord :=
  if rows.isEmpty then
    rs.map fun r => { r with organizer_name := "" }
  else
    rs.map fun r =>
      { r with organizer_name := (organizerLookup rows r.organizer_id).getD "" }

/-- Decimal value of a non-empty all-digit character list, `none`
otherwise. -/
def digitsToNat? (cs : List Char) : Option Nat :=
  if cs ≠ [] ∧ cs.all Char.isDigit then
    some (cs.foldl (fun acc c => 10 * acc + (c.toNat - '0'.toNat)) 0)
  else
    none

/-- `pd.to_numeric(·, errors=coerce)` on an identifier string
(`app.py` lines 185, 196): integer-form strings (an optional sign
followed by digits) parse to their value, everything else coerces to
NaN = `none`.  Identifiers are canonically integers transported as
strings (spec §3), so fractional or exponent forms are not modelled. -/
def toNumeric? (s : String) : Option Int :=
  match s.toList with
  | '-' :: cs => (digitsToNat? cs).map fun n => -(n : Int)
  | '+' :: cs => (digitsToNat? cs).map fun n => (n : Int)
  | cs => (digitsToNat? cs).map fun n => (n : Int)

/-- The numeric comparison key `event_id_num` derived on `app.py`
line 185: `pd.to_numeric(event_id, errors=coerce)`, `none` playing NaN. -/
def keyOf (r : RoomRecord) : Option Int :=
  toNumeric? r.event_id

/-- A best-so-far candidate of the per-group argmax: the record and its
numeric key, or `none` when no row with a numeric key has been seen. -/
abbrev Best := Option (RoomRecord × Int)

/-- Combine the argmax candidates of two consecutive row blocks: the later
block wins only with a strictly greater key, matching `idxmax`, which
returns the index of the *first* occurrence of the maximum and skips
NaN keys. -/
def merge2 : Best → Best → Best
  | none, b => b
  | some (r, q), none => some (r, q)
  | some (r, q), some (rr, qq) => if qq > q then some (rr, qq) else some (r, q)

/-- The argmax candidate of a single row. -/
def single (r : RoomRecord) : Best :=
  (keyOf r).map fun q => (r, q)

/-- `idxmax` over one `room_id` group (`app.py` line 189): the first row
of the group attaining the maximal numeric `event_id_num`, NaN keys
skipped; `none` when every key of the group is NaN (the raising case). -/
def bestFirst (l : List RoomRecord) : Best :=
  l.foldr (fun r b => merge2 (single r) b) none

/-- The group keys produced by `groupby` on the dedupe input: the distinct
`room_id` strings in lexicographically sorted order (`groupby` sorts group
keys by default). -/
def groupKeys (l : List RoomRecord) : List String :=
  ((l.map RoomRecord.room_id).dedup).insertionSort (· ≤ ·)

/-- The dedupe block of `main` (`app.py` lines 184-193):
`final_df.loc[final_df.groupby(room_id)[event_id_num].idxmax()]` —
for every distinct `room_id`, in sorted group-key order, keep the first
row of its group attaining the maximal numeric `event_id`.  When some
group has only NaN keys, `idxmax` raises and the run dies with an
uncaught exception, modelled by `none`. -/
def dedupeByRoom (l : List RoomRecord) : Option (List RoomRecord) :=
  if (groupKeys l).all
      (fun rid => (bestFirst (l.filter fun r => r.room_id = rid)).isSome) then
    some ((groupKeys l).filterMap
      (fun rid => (bestFirst (l.filter fun r => r.room_id = rid)).map Prod.fst))
  else
    none

/-- The numeric sort key `room_id_num` derived on `app.py` line 196. -/
def roomKey (r : RoomRecord) : Option Int :=
  toNumeric? r.room_id

/-- Numeric comparison of two rows with numeric `room_id` keys. -/
def roomLE (a b : RoomRecord) : Prop :=
  (roomKey a).getD 0 ≤ (roomKey b).getD 0

instance : DecidableRel roomLE := fun a b =>
  inferInstanceAs (Decidable ((roomKey a).getD 0 ≤ (roomKey b).getD 0))

/-- The sort of `main` (`app.py` lines 196-198):
`sort_values(by=room_id_num, ascending=True)` with the default
`na_position` — rows with a numeric `room_id` sorted ascending by its
value, followed by the rows with NaN `room_id_num` in their original
relative order. -/
def sortByRoom (l : List RoomRecord) : List RoomRecord :=
  (l.filter fun r => (roomKey r).isSome).insertionSort roomLE ++
    (l.filter fun r => (roomKey r).isNone)

/-- The outcome of one run of the pipeline part of `main`
(`app.py` lines 154-223) after the collection step. -/
inductive RunResult where
  | totalFailure : RunResult
  | crash : RunResult
  | artifact : List RoomRecord → RunResult
deriving DecidableEq, Repr

/-- The pipeline of `main` (`app.py` lines 154-206): collect all events'
records; when the concatenation is empty report total failure and stop
(lines 160-162, no artifact, no join/dedupe/sort); otherwise join the
organizer directory, dedupe by room and sort.  An exception escaping the
dedupe block kills the run: `.crash`. -/
def runPipeline (orgRows : List (String × String)) (srv : String → Server)
    (fuel : Nat) (ids : List String) : RunResult :=
  let collected := collectEvents srv fuel ids
  if collected = [] then
    .totalFailure
  else
    match dedupeByRoom (joinOrganizer orgRows collected) with
    | none => .crash
    | some deduped => .artifact (sortByRoom deduped)

/-- First-occurrence duplicate removal on a list (used to state the
duplicate-identifier claim: "the same list with duplicates removed"). -/
def firstDedup {α : Type} [DecidableEq α] : List α → List α
  | [] => []
  | a :: l => a :: firstDedup (l.filter fun b => b ≠ a)
termination_by l => l.length
decreasing_by
  simpa [Nat.lt_succ_iff] using List.length_filter_le _ l

/-! ## Concrete fixtures used to exercise the definitions -/

/-- A page entry with all fields present and valid. -/
def entryA : RoomEntry :=
  ⟨some (.num 101), some (.str "Room A"), some (.num 7),
    some (some (.num 40883)), some (.num 40882)⟩

/-- A page entry with a `null` `room_id` (must be dropped). -/
def entryBad : RoomEntry :=
  ⟨some .null, some (.str "No id"), none, some (some (.num 40883)), none⟩

/-- The record extracted from `entryA`. -/
def recA : RoomRecord := ⟨"101", "40883", "Room A", "7", ""⟩

/-- A record whose organizer id is mapped by `dirA`. -/
def recB : RoomRecord := ⟨"1", "10", "B", "7", ""⟩

/-- A record whose organizer id is not mapped by `dirA`. -/
def recC : RoomRecord := ⟨"2", "10", "C", "9", ""⟩

/-- A one-entry organizer directory. -/
def dirA : List (String × String) := [("7", "Acme")]

/-- An organizer directory CSV with two columns and a duplicated id. -/
def orgTable : CsvTable := ⟨2, [("7", "Acme"), ("8", "Beta"), ("7", "Last")]⟩

/-- A server that always answers with a non-empty page whose `next_page`
repeats the requested page number (the non-advancing API of the cycle
guard). -/
def cycleServer : Server := fun p => .ok ⟨[entryA], some p⟩

/-- A server whose first page is fine and whose second page times out. -/
def failServer : Server := fun p =>
  if p = 1 then .ok ⟨[entryA], some 2⟩ else .error "timeout"

/-- A server that always answers with an empty room list. -/
def emptyServer : Server := fun _ => .ok ⟨[], none⟩

/-- A server returning a single valid entry whose nested `event_id` is
the non-numeric string `"abc"`. -/
def badServer : Server := fun _ =>
  .ok ⟨[⟨some (.num 5), none, none, some (some (.str "abc")), none⟩], none⟩

/-! ## Helper lemmas: the `merge2` algebra of argmax candidates -/

theorem merge2_none_left (b : Best) : merge2 none b = b := rfl

theorem merge2_none_right (a : Best) : merge2 a none = a := by
  cases a with
  | none => rfl
  | some p => cases p; rfl

theorem merge2_assoc (a b c : Best) :
    merge2 (merge2 a b) c = merge2 a (merge2 b c) := by
  rcases a with _ | ⟨ra, qa⟩ <;> rcases b with _ | ⟨rb, qb⟩ <;>
    rcases c with _ | ⟨rc, qc⟩ <;> simp only [merge2] <;>
    split_ifs <;> simp only [merge2] <;> split_ifs <;> first | rfl | omega

theorem merge2_self (a : Best) : merge2 a a = a := by
  rcases a with _ | ⟨r, q⟩
  · rfl
  · simp [merge2]

/-- `s` absorbs `b`: merging `b` after `s` changes nothing (the block `b`
stands for was already seen no later than the block `s` summarises, with
no greater key). -/
def absorbs (s b : Best) : Prop := merge2 s b = s

theorem absorbs_self (a : Best) : absorbs a a := merge2_self a

theorem absorbs_none (s : Best) : absorbs s none := merge2_none_right s

theorem absorbs_iff {s b : Best} :
    absorbs s b ↔
      b = none ∨ ∃ rb qb rs qs, b = some (rb, qb) ∧ s = some (rs, qs) ∧ qb ≤ qs := by
  constructor
  · intro h
    rcases b with _ | ⟨rb, qb⟩
    · exact Or.inl rfl
    · rcases s with _ | ⟨rs, qs⟩
      · exact absurd h (by simp [absorbs, merge2])
      · refine Or.inr ⟨rb, qb, rs, qs, rfl, rfl, ?_⟩
        simp only [absorbs, merge2] at h
        split_ifs at h with h1
        · cases h; omega
        · omega
  · rintro (rfl | ⟨rb, qb, rs, qs, rfl, rfl, hle⟩)
    · exact absorbs_none s
    · simp only [absorbs, merge2]
      split_ifs with h1
      · omega
      · rfl

/-- Absorption survives merging further blocks on the right. -/
theorem absorbs_merge2 {s b : Best} (h : absorbs s b) (u : Best) :
    absorbs (merge2 s u) b := by
  rcases absorbs_iff.mp h with rfl | ⟨rb, qb, rs, qs, rfl, rfl, hle⟩
  · exact absorbs_none _
  · rcases u with _ | ⟨ru, qu⟩
    · rw [merge2_none_right]; exact h
    · refine absorbs_iff.mpr (Or.inr ?_)
      simp only [merge2]
      split_ifs with h1
      · exact ⟨rb, qb, ru, qu, rfl, rfl, by omega⟩
      · exact ⟨rb, qb, rs, qs, rfl, rfl, hle⟩

/-! ## Helper lemmas: `bestFirst` as a block-structured fold -/

theorem bestFirst_nil : bestFirst [] = none := rfl

theorem bestFirst_cons (r : RoomRecord) (l : List RoomRecord) :
    bestFirst (r :: l) = merge2 (single r) (bestFirst l) := rfl

theorem foldr_merge_init (A : List RoomRecord) (y : Best) :
    A.foldr (fun r b => merge2 (single r) b) y = merge2 (bestFirst A) y := by
  induction A with
  | nil => simp [bestFirst, merge2_none_left]
  | cons a A ih =>
      simp only [List.foldr_cons, ih, bestFirst_cons, merge2_assoc]

theorem bestFirst_append (A B : List RoomRecord) :
    bestFirst (A ++ B) = merge2 (bestFirst A) (bestFirst B) := by
  unfold bestFirst
  rw [List.foldr_append]
  exact foldr_merge_init A _

/-- Fold of per-block argmax candidates over a list of blocks. -/
def mergeMap {α : Type} (f : α → Best) (ids : List α) : Best :=
  (ids.map f).foldr merge2 none

theorem mergeMap_nil {α : Type} (f : α → Best) : mergeMap f [] = none := rfl

theorem mergeMap_cons {α : Type} (f : α → Best) (a : α) (l : List α) :
    mergeMap f (a :: l) = merge2 (f a) (mergeMap f l) := rfl

theorem bestFirst_flatMap {α : Type} (g : α → List RoomRecord)
    (ids : List α) :
    bestFirst (ids.flatMap g) = mergeMap (fun e => bestFirst (g e)) ids := by
  induction ids with
  | nil => rfl
  | cons a l ih =>
      rw [List.flatMap_cons, bestFirst_append, ih, mergeMap_cons]

/-- Blocks of an already-absorbed identifier can be filtered out without
changing the fold. -/
theorem mergeMap_filter_ne {α : Type} [DecidableEq α] (f : α → Best) (a : α) :
    ∀ (l : List α) (s : Best), absorbs s (f a) →
      merge2 s (mergeMap f l) = merge2 s (mergeMap f (l.filter fun b => b ≠ a)) := by
  intro l
  induction l with
  | nil => intro s _; rfl
  | cons b l ih =>
      intro s hs
      by_cases hb : b = a
      · subst hb
        rw [List.filter_cons_of_neg (by simp)]
        rw [mergeMap_cons, ← merge2_assoc, hs, ih s hs]
      · rw [List.filter_cons_of_pos (by simp [hb])]
        rw [mergeMap_cons, mergeMap_cons, ← merge2_assoc, ← merge2_assoc]
        exact ih (merge2 s (f b)) (absorbs_merge2 hs (f b))

/-- The central absorption property: folding the per-block candidates over
an identifier list is unchanged by first-occurrence duplicate removal. -/
theorem mergeMap_firstDedup {α : Type} [DecidableEq α] (f : α → Best) :
    ∀ ids : List α, mergeMap f ids = mergeMap f (firstDedup ids) := by
  intro ids
  induction ids using firstDedup.induct with
  | case1 => rw [firstDedup]
  | case2 a l ih =>
      rw [firstDedup, mergeMap_cons, mergeMap_cons, ← ih,
        mergeMap_filter_ne f a l (f a) (absorbs_self (f a))]

theorem mem_firstDedup {α : Type} [DecidableEq α] (x : α) :
    ∀ l : List α, x ∈ firstDedup l ↔ x ∈ l := by
  intro l
  induction l using firstDedup.induct with
  | case1 => simp [firstDedup]
  | case2 a l ih =>
      rw [firstDedup]
      by_cases hx : x = a
      · simp [hx]
      · simp only [List.mem_cons, hx, false_or, ih, List.mem_filter]
        simp [hx]

/-! ## Helper lemmas: specification of the per-group argmax `bestFirst` -/

theorem merge2_eq_none_iff {a b : Best} :
    merge2 a b = none ↔ a = none ∧ b = none := by
  rcases a with _ | ⟨ra, qa⟩ <;> rcases b with _ | ⟨rb, qb⟩ <;>
    simp only [merge2] <;> simp_all
  split_ifs <;> simp

theorem bestFirst_eq_none_iff (l : List RoomRecord) :
    bestFirst l = none ↔ ∀ r ∈ l, keyOf r = none := by
  induction l with
  | nil => simp [bestFirst_nil]
  | cons x l ih =>
      rw [bestFirst_cons, merge2_eq_none_iff]
      cases hx : keyOf x <;> simp [single, hx, ih]

theorem bestFirst_mem_key (l : List RoomRecord) :
    ∀ r q, bestFirst l = some (r, q) → r ∈ l ∧ keyOf r = some q := by
  induction l with
  | nil => simp [bestFirst_nil]
  | cons x l ih =>
      intro r q h
      rw [bestFirst_cons] at h
      cases hx : keyOf x with
      | none =>
          simp only [single, hx, Option.map_none', merge2_none_left] at h
          exact ⟨List.mem_cons_of_mem x (ih r q h).1, (ih r q h).2⟩
      | some qx =>
          simp only [single, hx, Option.map_some'] at h
          cases hb : bestFirst l with
          | none =>
              rw [hb, merge2_none_right] at h
              obtain ⟨h1, h2⟩ : x = r ∧ qx = q := by simpa using h
              subst h1; subst h2
              exact ⟨List.mem_cons_self _ _, hx⟩
          | some pr =>
              obtain ⟨rl, ql⟩ := pr
              rw [hb] at h
              simp only [merge2] at h
              split_ifs at h with h1
              · obtain ⟨h1, h2⟩ : rl = r ∧ ql = q := by simpa using h
                subst h1; subst h2
                exact ⟨List.mem_cons_of_mem x (ih _ _ hb).1, (ih _ _ hb).2⟩
              · obtain ⟨h1, h2⟩ : x = r ∧ qx = q := by simpa using h
                subst h1; subst h2
                exact ⟨List.mem_cons_self _ _, hx⟩

/-- The argmax candidate's key bounds every numeric key of the group. -/
theorem bestFirst_ub (l : List RoomRecord) :
    ∀ r q, bestFirst l = some (r, q) →
      ∀ p ∈ l, ∀ qp, keyOf p = some qp → qp ≤ q := by
  induction l with
  | nil => simp [bestFirst_nil]
  | cons x l ih =>
      intro r q h p hp qp hqp
      rw [bestFirst_cons] at h
      cases hx : keyOf x with
      | none =>
          simp only [single, hx, Option.map_none', merge2_none_left] at h
          rcases List.mem_cons.mp hp with rfl | hmem
          · rw [hx] at hqp; cases hqp
          · exact ih r q h p hmem qp hqp
      | some qx =>
          simp only [single, hx, Option.map_some'] at h
          cases hb : bestFirst l with
          | none =>
              rw [hb, merge2_none_right] at h
              obtain ⟨h1, h2⟩ : x = r ∧ qx = q := by simpa using h
              rcases List.mem_cons.mp hp with rfl | hmem
              · rw [hx] at hqp; cases hqp; omega
              · rw [(bestFirst_eq_none_iff l).mp hb p hmem] at hqp; cases hqp
          | some pr =>
              obtain ⟨rl, ql⟩ := pr
              rw [hb] at h
              simp only [merge2] at h
              split_ifs at h with h1
              · obtain ⟨h2, h3⟩ : rl = r ∧ ql = q := by simpa using h
                rcases List.mem_cons.mp hp with rfl | hmem
                · rw [hx] at hqp; cases hqp; omega
                · have := ih _ _ hb p hmem qp hqp; omega
              · obtain ⟨h2, h3⟩ : x = r ∧ qx = q := by simpa using h
                rcases List.mem_cons.mp hp with rfl | hmem
                · rw [hx] at hqp; cases hqp; omega
                · have := ih _ _ hb p hmem qp hqp; omega

/-- Forward half of the `idxmax` specification: the result is the first
row attaining the strict maximum of the numeric keys. -/
theorem bestFirst_some_spec (l : List RoomRecord) :
    ∀ r q, bestFirst l = some (r, q) →
      ∃ pre post, l = pre ++ r :: post ∧ keyOf r = some q ∧
        (∀ p ∈ pre, ∀ qp, keyOf p = some qp → qp < q) ∧
        (∀ p ∈ post, ∀ qp, keyOf p = some qp → qp ≤ q) := by
  induction l with
  | nil => simp [bestFirst_nil]
  | cons x l ih =>
      intro r q h
      rw [bestFirst_cons] at h
      cases hx : keyOf x with
      | none =>
          simp only [single, hx, Option.map_none', merge2_none_left] at h
          obtain ⟨pre, post, hl, hk, hpre, hpost⟩ := ih r q h
          refine ⟨x :: pre, post, by rw [hl, List.cons_append], hk, ?_, hpost⟩
          intro p hp qp hqp
          rcases List.mem_cons.mp hp with rfl | hmem
          · rw [hx] at hqp; cases hqp
          · exact hpre p hmem qp hqp
      | some qx =>
          simp only [single, hx, Option.map_some'] at h
          cases hb : bestFirst l with
          | none =>
              rw [hb, merge2_none_right] at h
              obtain ⟨h1, h2⟩ : x = r ∧ qx = q := by simpa using h
              subst h1; subst h2
              refine ⟨[], l, rfl, hx, by simp, ?_⟩
              intro p hp qp hqp
              rw [(bestFirst_eq_none_iff l).mp hb p hp] at hqp
              cases hqp
          | some pr =>
              obtain ⟨rl, ql⟩ := pr
              rw [hb] at h
              simp only [merge2] at h
              split_ifs at h with h1
              · obtain ⟨h2, h3⟩ : rl = r ∧ ql = q := by simpa using h
                subst h2; subst h3
                obtain ⟨pre, post, hl, hk, hpre, hpost⟩ := ih _ _ hb
                refine ⟨x :: pre, post, by rw [hl, List.cons_append], hk, ?_, hpost⟩
                intro p hp qp hqp
                rcases List.mem_cons.mp hp with rfl | hmem
                · rw [hx] at hqp; cases hqp; omega
                · exact hpre p hmem qp hqp
              · obtain ⟨h2, h3⟩ : x = r ∧ qx = q := by simpa using h
                subst h2; subst h3
                refine ⟨[], l, rfl, hx, by simp, ?_⟩
                intro p hp qp hqp
                have := bestFirst_ub l _ _ hb p hp qp hqp
                omega

/-- Backward half of the `idxmax` specification. -/
theorem bestFirst_of_split (r : RoomRecord) (q : Int) (hk : keyOf r = some q) :
    ∀ pre post,
      (∀ p ∈ pre, ∀ qp, keyOf p = some qp → qp < q) →
      (∀ p ∈ post, ∀ qp, keyOf p = some qp → qp ≤ q) →
      bestFirst (pre ++ r :: post) = some (r, q) := by
  intro pre
  induction pre with
  | nil =>
      intro post _ hpost
      rw [List.nil_append, bestFirst_cons]
      cases hb : bestFirst post with
      | none => simp [single, hk, merge2_none_right]
      | some pr =>
          obtain ⟨rp, qp⟩ := pr
          obtain ⟨hmem, hkey⟩ := bestFirst_mem_key post _ _ hb
          have hle : qp ≤ q := hpost rp hmem qp hkey
          simp only [single, hk, Option.map_some', merge2]
          split_ifs with h1
          · omega
          · rfl
  | cons p pre ihp =>
      intro post hpre hpost
      rw [List.cons_append, bestFirst_cons]
      have hrec := ihp post
        (fun a ha qa hqa => hpre a (List.mem_cons_of_mem p ha) qa hqa) hpost
      rw [hrec]
      cases hp : keyOf p with
      | none => simp [single, hp, merge2_none_left]
      | some qp =>
          have hlt : qp < q := hpre p (List.mem_cons_self p pre) qp hp
          simp only [single, hp, Option.map_some', merge2]
          split_ifs with h1
          · rfl
          · omega

/-! ## Helper lemmas: organizer directory lookup and join -/

theorem lookup_eq_filter_head (k : String) :
    ∀ rows : List (String × String),
      rows.lookup k = ((rows.filter fun row => row.1 = k).head?).map Prod.snd := by
  intro rows
  induction rows with
  | nil => rfl
  | cons p rows ih =>
      obtain ⟨a, b⟩ := p
      by_cases hk : a = k
      · subst hk
        rw [List.lookup_cons, List.filter_cons_of_pos (by simp)]
        simp
      · rw [List.lookup_cons, List.filter_cons_of_neg (by simp [hk])]
        have : (k == a) = false := by simp [Ne.symm hk]
        rw [this, ih]

/-- `organizerLookup` is exactly "the name of the last row whose id is
`k`": last-row-wins on duplicate ids. -/
theorem organizerLookup_eq_getLast (rows : List (String × String)) (k : String) :
    organizerLookup rows k =
      ((rows.filter fun row => row.1 = k).getLast?).map Prod.snd := by
  rw [organizerLookup, lookup_eq_filter_head, List.filter_reverse,
    List.head?_reverse]

/-- Both branches of the join (`organizer_map` truthy or empty) set
`organizer_name` to the looked-up value with default `""` and leave every
other field unchanged. -/
theorem joinOrganizer_eq_map (m : List (String × String)) (rs : List RoomRecord) :
    joinOrganizer m rs =
      rs.map fun r =>
        { r with organizer_name := (organizerLookup m r.organizer_id).getD "" } := by
  unfold joinOrganizer
  split_ifs with hm
  · have : m = [] := List.isEmpty_iff.mp hm
    subst this
    simp [organizerLookup]
  · rfl

theorem joinOrganizer_flatMap {α : Type} (m : List (String × String))
    (g : α → List RoomRecord) (ids : List α) :
    joinOrganizer m (ids.flatMap g) = ids.flatMap fun e => joinOrganizer m (g e) := by
  simp only [joinOrganizer_eq_map, List.map_flatMap]

/-! ## Helper lemmas: the dedupe stage -/

theorem mem_groupKeys {l : List RoomRecord} {rid : String} :
    rid ∈ groupKeys l ↔ rid ∈ l.map RoomRecord.room_id := by
  rw [groupKeys, List.mem_insertionSort, List.mem_dedup]

theorem nodup_groupKeys (l : List RoomRecord) : (groupKeys l).Nodup := by
  rw [groupKeys]
  exact ((List.perm_insertionSort _ _).nodup_iff).mpr (List.nodup_dedup _)

/-- The record selected for a group carries that group's `room_id`. -/
theorem pick_room_id {l : List RoomRecord} {rid : String} {r : RoomRecord}
    {q : Int} (h : bestFirst (l.filter fun x => x.room_id = rid) = some (r, q)) :
    r.room_id = rid := by
  have hmem := (bestFirst_mem_key _ _ _ h).1
  have := List.mem_filter.mp hmem
  exact of_decide_eq_true this.2

/-- Two inputs with the same distinct `room_id` strings have the same
sorted group keys. -/
theorem groupKeys_eq_of_mem_iff {l1 l2 : List RoomRecord}
    (h : ∀ rid, rid ∈ l1.map RoomRecord.room_id ↔ rid ∈ l2.map RoomRecord.room_id) :
    groupKeys l1 = groupKeys l2 := by
  unfold groupKeys
  have hperm : (l1.map RoomRecord.room_id).dedup.Perm (l2.map RoomRecord.room_id).dedup := by
    rw [List.perm_ext_iff_of_nodup (List.nodup_dedup _) (List.nodup_dedup _)]
    intro rid
    rw [List.mem_dedup, List.mem_dedup]
    exact h rid
  refine List.eq_of_perm_of_sorted ?_ (List.sorted_insertionSort _ _)
    (List.sorted_insertionSort _ _)
  exact ((List.perm_insertionSort _ _).trans hperm).trans
    (List.perm_insertionSort _ _).symm

/-- Invariance of the whole dedupe stage under first-occurrence removal
of duplicate blocks: the group-key set is unchanged and each group's
argmax candidate is unchanged. -/
theorem dedupeByRoom_flatMap_firstDedup {α : Type} [DecidableEq α]
    (g : α → List RoomRecord) (ids : List α) :
    dedupeByRoom (ids.flatMap g) = dedupeByRoom ((firstDedup ids).flatMap g) := by
  have hkeys : groupKeys (ids.flatMap g) = groupKeys ((firstDedup ids).flatMap g) := by
    refine groupKeys_eq_of_mem_iff ?_
    intro rid
    simp only [List.map_flatMap, List.mem_flatMap]
    constructor
    · rintro ⟨e, he, hmem⟩
      exact ⟨e, (mem_firstDedup e ids).mpr he, hmem⟩
    · rintro ⟨e, he, hmem⟩
      exact ⟨e, (mem_firstDedup e ids).mp he, hmem⟩
  have hpick : ∀ rid : String,
      bestFirst ((ids.flatMap g).filter fun r => r.room_id = rid) =
        bestFirst (((firstDedup ids).flatMap g).filter fun r => r.room_id = rid) := by
    intro rid
    rw [List.filter_flatMap, List.filter_flatMap, bestFirst_flatMap,
      bestFirst_flatMap, mergeMap_firstDedup]
  unfold dedupeByRoom
  rw [hkeys]
  simp only [hpick]

/-! ## Helper lemmas: the sort stage -/

instance : IsTotal RoomRecord roomLE :=
  ⟨fun a b => le_total ((roomKey a).getD 0) ((roomKey b).getD 0)⟩

instance : IsTrans RoomRecord roomLE :=
  ⟨fun _ _ _ hab hbc => le_trans hab hbc⟩

theorem sortByRoom_perm (l : List RoomRecord) : (sortByRoom l).Perm l := by
  unfold sortByRoom
  have h1 := (List.perm_insertionSort roomLE
    (l.filter fun r => (roomKey r).isSome)).append_right
    (l.filter fun r => (roomKey r).isNone)
  have h2 := List.filter_append_perm (fun r => (roomKey r).isSome) l
  have hn : (l.filter fun r => !(roomKey r).isSome) =
      (l.filter fun r => (roomKey r).isNone) := by
    apply List.filter_congr
    intro r _
    cases hr : roomKey r <;> simp
  rw [hn] at h2
  exact h1.trans h2

/-! ## Helper lemmas: the pagination loop -/

/-- Under any of the three termination signals — empty list, absent/null
`next_page`, or `next_page` repeating the current page — the loop exits in
the current iteration, whatever fuel remains. -/
theorem fetchLoop_stop {server : Server} {page : Int} {resp : PageResponse}
    (acc : List RoomRecord) (hok : server page = .ok resp)
    (hcond : resp.list = [] ∨ resp.next_page = none ∨ resp.next_page = some page)
    (fuel : Nat) :
    fetchLoop server (fuel + 1) page acc =
      if resp.list.isEmpty then acc else acc ++ processPage resp.list := by
  simp only [fetchLoop, hok]
  rcases hcond with hc | hc | hc
  · simp [hc]
  · by_cases he : resp.list.isEmpty <;> simp [he, hc]
  · by_cases he : resp.list.isEmpty <;> simp [he, hc]

/-- An exception (transport error, HTTP error status, JSON parse failure)
at the current page returns the records collected so far. -/
theorem fetchLoop_error {server : Server} {page : Int} {msg : String}
    (acc : List RoomRecord) (herr : server page = .error msg) (fuel : Nat) :
    fetchLoop server (fuel + 1) page acc = acc := by
  simp only [fetchLoop, herr]

/-- Selecting one record per nodup key list, each selected record carrying
its key, then filtering the output by one key, leaves exactly that key's
record. -/
theorem filter_filterMap_pick (pick : String → Option RoomRecord)
    (hpick : ∀ rid r, pick rid = some r → r.room_id = rid) :
    ∀ (R : List String), R.Nodup → ∀ rid r, rid ∈ R → pick rid = some r →
      (R.filterMap pick).filter (fun x => x.room_id = rid) = [r] := by
  intro R
  induction R with
  | nil => simp
  | cons a R ih =>
      intro hnd rid r hmem hp
      have hna : a ∉ R := (List.nodup_cons.mp hnd).1
      have hndR : R.Nodup := (List.nodup_cons.mp hnd).2
      rcases List.mem_cons.mp hmem with rfl | hmemR
      · rw [List.filterMap_cons, hp]
        rw [List.filter_cons_of_pos (by simp [hpick rid r hp])]
        have htail : (R.filterMap pick).filter (fun x => x.room_id = rid) = [] := by
          rw [List.filter_eq_nil_iff]
          intro x hx
          obtain ⟨rid2, hrid2, hx2⟩ := List.mem_filterMap.mp hx
          have : x.room_id = rid2 := hpick rid2 x hx2
          simp only [this]
          simp only [decide_eq_true_eq]
          intro heq
          exact hna (heq ▸ hrid2)
        rw [htail]
      · have hrida : rid ≠ a := by
          rintro rfl
          exact hna hmemR
        rw [List.filterMap_cons]
        cases hpa : pick a with
        | none => exact ih hndR rid r hmemR hp
        | some ra =>
            have hra : ra.room_id = a := hpick a ra hpa
            rw [List.filter_cons_of_neg (by simp [hra, hrida.symm])]
            exact ih hndR rid r hmemR hp

/-! ## The claims -/

/-- C1: grouping the collected set by exact string equality of `room_id`,
the dedupe step keeps exactly one record per `room_id` — a record of the
input (all fields intact) whose `event_id` has the maximal numeric value
in its group, and, when several group members attain that maximum, the
first one encountered in collection order (everything before the kept
record in its group has a strictly smaller numeric key); all other group
members are discarded.  Stated under the hypothesis that the dedupe step
completes (`some out`), i.e. every group has at least one record with a
numeric `event_id` — the maximal numeric value does not exist otherwise
(see C6 for that case). -/
theorem C1_dedupe_keeps_argmax_first_encountered (l out : List RoomRecord)
    (h : dedupeByRoom l = some out) :
    (∀ r ∈ out, r ∈ l) ∧
    ∀ rid, rid ∈ l.map RoomRecord.room_id →
      ∃ r pre post q,
        out.filter (fun x => x.room_id = rid) = [r] ∧
        l.filter (fun x => x.room_id = rid) = pre ++ r :: post ∧
        keyOf r = some q ∧
        (∀ p ∈ pre, ∀ qp, keyOf p = some qp → qp < q) ∧
        (∀ p ∈ post, ∀ qp, keyOf p = some qp → qp ≤ q) := by
  unfold dedupeByRoom at h
  split_ifs at h with hall
  obtain rfl : ((groupKeys l).filterMap
      fun rid => (bestFirst (l.filter fun r => r.room_id = rid)).map Prod.fst) = out := by
    cases h; rfl
  constructor
  · intro r hr
    obtain ⟨rid, _, hpick⟩ := List.mem_filterMap.mp hr
    obtain ⟨⟨r2, q⟩, hbest, hfst⟩ := Option.map_eq_some'.mp hpick
    obtain rfl : r2 = r := hfst
    have := (bestFirst_mem_key _ _ _ hbest).1
    exact (List.mem_filter.mp this).1
  · intro rid hrid
    have hridG : rid ∈ groupKeys l := mem_groupKeys.mpr hrid
    have hsome : (bestFirst (l.filter fun r => r.room_id = rid)).isSome := by
      have := List.all_eq_true.mp hall rid hridG
      simpa using this
    obtain ⟨⟨r, q⟩, hbest⟩ := Option.isSome_iff_exists.mp hsome
    obtain ⟨pre, post, hsplit, hk, hpre, hpost⟩ := bestFirst_some_spec _ _ _ hbest
    refine ⟨r, pre, post, q, ?_, hsplit, hk, hpre, hpost⟩
    refine filter_filterMap_pick _ ?_ (groupKeys l) (nodup_groupKeys l) rid r hridG ?_
    · intro rid2 r2 hp2
      obtain ⟨⟨r3, q3⟩, hb3, hf3⟩ := Option.map_eq_some'.mp hp2
      obtain rfl : r3 = r2 := hf3
      exact pick_room_id hb3
    · rw [hbest]; rfl

/-- Witness for C1: the spec's own example.  Records
`{room_id:"5", event_id:"100"}` and `{room_id:"5", event_id:"200"}`
dedupe to exactly the `event_id:"200"` record. -/
theorem C1_witness :
    dedupeByRoom [⟨"5", "100", "", "", ""⟩, ⟨"5", "200", "", "", ""⟩] =
        some [⟨"5", "200", "", "", ""⟩] ∧
      ∃ r pre post q,
        ([(⟨"5", "200", "", "", ""⟩ : RoomRecord)].filter
            (fun x => x.room_id = "5")) = [r] ∧
        ([⟨"5", "100", "", "", ""⟩,
            (⟨"5", "200", "", "", ""⟩ : RoomRecord)].filter
            (fun x => x.room_id = "5")) = pre ++ r :: post ∧
        keyOf r = some q ∧
        (∀ p ∈ pre, ∀ qp, keyOf p = some qp → qp < q) ∧
        (∀ p ∈ post, ∀ qp, keyOf p = some qp → qp ≤ q) :=
  ⟨by decide,
    (C1_dedupe_keeps_argmax_first_encountered
        [⟨"5", "100", "", "", ""⟩, ⟨"5", "200", "", "", ""⟩]
        [⟨"5", "200", "", "", ""⟩] (by decide)).2 "5" (by decide)⟩

/-- C2 counterexample: the claim places records with a non-numeric
`room_id` *before* all numeric ones, so on the input
`[room_id = "x", room_id = "2"]` it requires the output
`[room "x", room "2"]`; the code (`sort_values` with the default
`na_position`) produces `[room "2", room "x"]` — the NaN-keyed record
comes after the numeric one. -/
theorem C2_counterexample :
    sortByRoom [⟨"x", "1", "", "", ""⟩, ⟨"2", "1", "", "", ""⟩] =
        [⟨"2", "1", "", "", ""⟩, ⟨"x", "1", "", "", ""⟩] ∧
      sortByRoom [⟨"x", "1", "", "", ""⟩, ⟨"2", "1", "", "", ""⟩] ≠
        [⟨"x", "1", "", "", ""⟩, ⟨"2", "1", "", "", ""⟩] ∧
      roomKey ⟨"x", "1", "", "", ""⟩ = none ∧
      roomKey ⟨"2", "1", "", "", ""⟩ = some 2 := by
  decide

/-- C2 amended: the FinalTable is the records with numeric `room_id`
sorted ascending by its numeric value, followed by (not preceded by) the
records whose `room_id` fails numeric parsing, those keeping their
original relative order; the sort is a permutation of its input. -/
theorem C2_sort_numeric_asc_nan_after (l : List RoomRecord) :
    ∃ numsorted,
      sortByRoom l = numsorted ++ (l.filter fun r => (roomKey r).isNone) ∧
      numsorted.Perm (l.filter fun r => (roomKey r).isSome) ∧
      List.Sorted roomLE numsorted ∧
      (∀ r ∈ numsorted, (roomKey r).isSome = true) ∧
      (sortByRoom l).Perm l := by
  refine ⟨(l.filter fun r => (roomKey r).isSome).insertionSort roomLE,
    rfl, List.perm_insertionSort _ _, List.sorted_insertionSort _ _, ?_,
    sortByRoom_perm l⟩
  intro r hr
  have := (List.perm_insertionSort roomLE _).mem_iff.mp hr
  exact (List.mem_filter.mp this).2

/-- Witness for the amended C2, at a list mixing the spec's numeric
example ids `"10"`, `"2"`, `"33"` with a non-numeric `room_id`. -/
theorem C2_amended_witness :
    ∃ numsorted,
      sortByRoom [⟨"10", "1", "", "", ""⟩, ⟨"x", "1", "", "", ""⟩,
          ⟨"2", "1", "", "", ""⟩, ⟨"33", "1", "", "", ""⟩] =
        numsorted ++
          ([⟨"10", "1", "", "", ""⟩, ⟨"x", "1", "", "", ""⟩,
              ⟨"2", "1", "", "", ""⟩,
              (⟨"33", "1", "", "", ""⟩ : RoomRecord)].filter
            fun r => (roomKey r).isNone) ∧
      numsorted.Perm
        ([⟨"10", "1", "", "", ""⟩, ⟨"x", "1", "", "", ""⟩,
            ⟨"2", "1", "", "", ""⟩,
            (⟨"33", "1", "", "", ""⟩ : RoomRecord)].filter
          fun r => (roomKey r).isSome) ∧
      List.Sorted roomLE numsorted ∧
      (∀ r ∈ numsorted, (roomKey r).isSome = true) ∧
      (sortByRoom [⟨"10", "1", "", "", ""⟩, ⟨"x", "1", "", "", ""⟩,
          ⟨"2", "1", "", "", ""⟩, ⟨"33", "1", "", "", ""⟩]).Perm
        [⟨"10", "1", "", "", ""⟩, ⟨"x", "1", "", "", ""⟩,
          ⟨"2", "1", "", "", ""⟩, ⟨"33", "1", "", "", ""⟩] :=
  C2_sort_numeric_asc_nan_after
    [⟨"10", "1", "", "", ""⟩, ⟨"x", "1", "", "", ""⟩,
      ⟨"2", "1", "", "", ""⟩, ⟨"33", "1", "", "", ""⟩]

/-- C3: the pagination loop stops in the current iteration — the result
does not depend on the remaining fuel — whenever the page's `list` is
empty (absent/null behaves the same), `next_page` is absent/null, or
`next_page` equals the current page; in particular a server that always
answers a non-null `next_page` equal to the requested page cannot make
the loop run more than one iteration. -/
theorem C3_pagination_terminates (server : Server) (page : Int)
    (acc : List RoomRecord) :
    (∀ resp, server page = .ok resp →
      (resp.list = [] ∨ resp.next_page = none ∨ resp.next_page = some page) →
      ∀ fuel, fetchLoop server (fuel + 1) page acc = fetchLoop server 1 page acc) ∧
    ((∀ p resp, server p = .ok resp → resp.next_page = some p) →
      ∀ fuel, fetchLoop server (fuel + 1) page acc = fetchLoop server 1 page acc) := by
  constructor
  · intro resp hok hcond fuel
    exact (fetchLoop_stop acc hok hcond fuel).trans
      (fetchLoop_stop acc hok hcond 0).symm
  · intro hall fuel
    cases hsrv : server page with
    | error msg =>
        exact (fetchLoop_error acc hsrv fuel).trans (fetchLoop_error acc hsrv 0).symm
    | ok resp =>
        have hnp : resp.next_page = some page := hall page resp hsrv
        exact (fetchLoop_stop acc hsrv (Or.inr (Or.inr hnp)) fuel).trans
          (fetchLoop_stop acc hsrv (Or.inr (Or.inr hnp)) 0).symm

/-- Witness for C3: against `cycleServer` (non-empty pages, `next_page`
always repeating the current page) the fetch result is fuel-independent:
the cycle guard stops after one page. -/
theorem C3_witness :
    fetchLoop cycleServer 6 1 [] = fetchLoop cycleServer 1 1 [] ∧
      fetchLoop cycleServer 43 1 [] = fetchLoop cycleServer 1 1 [] :=
  ⟨(C3_pagination_terminates cycleServer 1 []).1 ⟨[entryA], some 1⟩ rfl
      (Or.inr (Or.inr rfl)) 5,
    (C3_pagination_terminates cycleServer 1 []).2
      (fun p resp h => by cases h; rfl) 42⟩

/-- C4: a record is appended for a page entry exactly when the top-level
`room_id` and the `event_id` nested under `event_entry` are both truthy
(present and non-empty/non-zero); an entry failing the check is skipped
without affecting the rest of the page; the stored `event_id` is the
nested one — the top-level `event_id` key is ignored entirely. -/
theorem C4_required_fields_filter (e : RoomEntry) (rest : List RoomEntry) :
    processPage (e :: rest) = (processRoom e).toList ++ processPage rest ∧
    ((processRoom e).isSome ↔
      ((e.room_id.getD .null).truthy = true ∧
        ((e.event_entry.getD none).getD .null).truthy = true)) ∧
    (∀ r, processRoom e = some r →
      r.event_id = ((e.event_entry.getD none).getD .null).toStr ∧
      r.room_id = (e.room_id.getD .null).toStr ∧
      r.room_name = (e.room_name.getD (.str "")).toStr ∧
      r.organizer_id = (e.organizer_id.getD (.num 0)).toStr) ∧
    (∀ v, processRoom { e with event_id_top := v } = processRoom e) := by
  have heq : processRoom e =
      if ((e.room_id.getD .null).truthy &&
            ((e.event_entry.getD none).getD .null).truthy) = true then
        some { room_id := (e.room_id.getD .null).toStr
               event_id := ((e.event_entry.getD none).getD .null).toStr
               room_name := (e.room_name.getD (.str "")).toStr
               organizer_id := (e.organizer_id.getD (.num 0)).toStr }
      else none := rfl
  refine ⟨?_, ?_, ?_, fun v => rfl⟩
  · cases hp : processRoom e <;>
      simp [processPage, List.filterMap_cons, hp]
  · rw [heq]
    split_ifs with hc
    · simpa [Bool.and_eq_true] using hc
    · simpa [Bool.and_eq_true] using hc
  · intro r hr
    rw [heq] at hr
    split_ifs at hr
    cases hr
    exact ⟨rfl, rfl, rfl, rfl⟩

/-- Witness for C4: `entryA` (all fields valid) yields `recA`, whose
`event_id` is the nested `40883` and not the top-level `40882`;
`entryBad` (null `room_id`) is dropped while the page goes on. -/
theorem C4_witness :
    (processPage [entryBad, entryA] = (processRoom entryBad).toList ++
        processPage [entryA] ∧ processRoom entryBad = none ∧
        processRoom entryA = some recA) ∧
      recA.event_id = ((entryA.event_entry.getD none).getD .null).toStr :=
  ⟨⟨(C4_required_fields_filter entryBad [entryA]).1, by decide, by decide⟩,
    ((C4_required_fields_filter entryA []).2.2.1 recA (by decide)).1⟩

/-- C5: an exception at any page — transport failure, non-success HTTP
status or parse failure, all modelled by `.error` — makes the fetcher
return exactly the records collected on the earlier pages of that event,
rather than propagate; and the multi-event collector is a plain
concatenation, so a failing event contributes its partial list while all
other event identifiers are still processed. -/
theorem C5_transport_error_keeps_collected (server : Server) (page : Int)
    (acc : List RoomRecord) (msg : String) :
    (server page = .error msg → ∀ fuel, fetchLoop server (fuel + 1) page acc = acc) ∧
    (∀ (srv : String → Server) (fuel : Nat) (ids1 ids2 : List String)
        (bad : String),
      collectEvents srv fuel (ids1 ++ bad :: ids2) =
        collectEvents srv fuel ids1 ++ fetch_all_room_data (srv bad) fuel ++
          collectEvents srv fuel ids2) := by
  constructor
  · intro herr fuel
    exact fetchLoop_error acc herr fuel
  · intro srv fuel ids1 ids2 bad
    simp [collectEvents, List.flatMap_append, List.flatMap_cons,
      List.append_assoc]

/-- Witness for C5: `failServer` delivers page 1 and times out on
page 2; continuing the loop at page 2 with page 1's records returns
exactly those records, whatever fuel remains. -/
theorem C5_witness :
    fetchLoop failServer 4 2 (processPage [entryA]) = processPage [entryA] ∧
      collectEvents (fun _ => failServer) 2 (["10"] ++ "20" :: ["30"]) =
        collectEvents (fun _ => failServer) 2 ["10"] ++
          fetch_all_room_data failServer 2 ++
          collectEvents (fun _ => failServer) 2 ["30"] :=
  ⟨(C5_transport_error_keeps_collected failServer 2 (processPage [entryA]) "timeout").1
      rfl 3,
    (C5_transport_error_keeps_collected failServer 2 [] "timeout").2
      (fun _ => failServer) 2 ["10"] ["30"] "20"⟩

/-- C6: the claim asserts the group/argmax comparison never crashes, even
when every record of some `room_id` group has a non-numeric `event_id`.
The mixed case indeed treats the non-numeric key as lowest (third
conjunct), but a group consisting only of non-numeric `event_id`s makes
pandas `idxmax` raise — the dedupe step dies with an uncaught exception
(first conjunct, `none`), contradicting the claim. -/
theorem C6_allnan_group_crashes :
    dedupeByRoom [⟨"5", "abc", "", "", ""⟩] = none ∧
      keyOf ⟨"5", "abc", "", "", ""⟩ = none ∧
      dedupeByRoom [⟨"5", "abc", "", "", ""⟩, ⟨"5", "7", "", "", ""⟩] =
        some [⟨"5", "7", "", "", ""⟩] := by
  decide

/-- C7: an empty concatenation of all events' records reports total
failure, producing no artifact and never reaching the join/dedupe/sort
(first conjunct).  But it is not the only condition aborting the run: a
non-empty collection whose only record has the non-numeric `event_id`
`"abc"` (second conjunct) also aborts the run, through the uncaught
dedupe exception of C6 (third conjunct) — contradicting the claim's
"this is the only condition that aborts the whole run". -/
theorem C7_total_failure_report :
    runPipeline [] (fun _ => emptyServer) 3 ["40883", "40884"] = .totalFailure ∧
      collectEvents (fun _ => badServer) 3 ["40883"] ≠ [] ∧
      runPipeline [] (fun _ => badServer) 3 ["40883"] = .crash := by
  decide

/-- C8: a network/decode/parse failure of the organizer directory fetch
yields the empty mapping; a parsed table with fewer than two columns
yields the empty mapping; otherwise the mapping sends an id to the name
in the *last* row carrying that id (last-row-wins), and ids on no row to
nothing.  None of these outcomes aborts anything: the loader is total. -/
theorem C8_organizer_loader_degraded (msg : String) (t : CsvTable) :
    fetch_organizer_list (.error msg) = [] ∧
    (t.numCols < 2 → fetch_organizer_list (.ok t) = []) ∧
    (2 ≤ t.numCols → ∀ k,
      organizerLookup (fetch_organizer_list (.ok t)) k =
        ((t.rows.filter fun row => row.1 = k).getLast?).map Prod.snd) := by
  refine ⟨rfl, ?_, ?_⟩
  · intro h
    simp only [fetch_organizer_list]
    rw [if_neg (by omega)]
  · intro h k
    have hrows : fetch_organizer_list (.ok t) = t.rows := by
      simp only [fetch_organizer_list]
      rw [if_pos h]
    rw [hrows, organizerLookup_eq_getLast]

/-- Witness for C8: a failed fetch and a one-column table give the empty
mapping; on `orgTable` the duplicated id `"7"` resolves to the last row's
name and the unmapped id `"9"` resolves to nothing. -/
theorem C8_witness :
    fetch_organizer_list (.error "boom") = [] ∧
      fetch_organizer_list (.ok ⟨1, [("7", "Acme")]⟩) = [] ∧
      organizerLookup (fetch_organizer_list (.ok orgTable)) "7" = some "Last" ∧
      organizerLookup (fetch_organizer_list (.ok orgTable)) "9" = none :=
  ⟨(C8_organizer_loader_degraded "boom" orgTable).1,
    (C8_organizer_loader_degraded "x" ⟨1, [("7", "Acme")]⟩).2.1 (by decide),
    ((C8_organizer_loader_degraded "x" orgTable).2.2 (by decide) "7").trans
      (by decide),
    ((C8_organizer_loader_degraded "x" orgTable).2.2 (by decide) "9").trans
      (by decide)⟩

/-- C9: the join sets each record's `organizer_name` to the directory's
value for its `organizer_id` when that key is mapped, and to `""` when
the key is unmapped or the directory is empty (an empty directory maps no
key, so the single `map` equation covers both branches of the code), and
changes no other field of any record. -/
theorem C9_organizer_join (m : List (String × String)) (rs : List RoomRecord) :
    joinOrganizer m rs =
      rs.map (fun r =>
        { r with organizer_name := (organizerLookup m r.organizer_id).getD "" }) ∧
    (∀ r ∈ rs, ∀ v, organizerLookup m r.organizer_id = some v →
      { r with organizer_name := v } ∈ joinOrganizer m rs) ∧
    (∀ r ∈ rs, organizerLookup m r.organizer_id = none →
      { r with organizer_name := "" } ∈ joinOrganizer m rs) := by
  refine ⟨joinOrganizer_eq_map m rs, ?_, ?_⟩
  · intro r hr v hv
    rw [joinOrganizer_eq_map]
    exact List.mem_map.mpr ⟨r, hr, by rw [hv]; rfl⟩
  · intro r hr hv
    rw [joinOrganizer_eq_map]
    exact List.mem_map.mpr ⟨r, hr, by rw [hv]; rfl⟩

/-- Witness for C9: the spec's example — directory `{"7": "Acme"}`, a
record with `organizer_id:"7"` resolves to `"Acme"`, and one with the
unmapped `organizer_id:"9"` gets the empty string. -/
theorem C9_witness :
    { recB with organizer_name := "Acme" } ∈ joinOrganizer dirA [recB, recC] ∧
      { recC with organizer_name := "" } ∈ joinOrganizer dirA [recB, recC] :=
  ⟨(C9_organizer_join dirA [recB, recC]).2.1 recB (by decide) "Acme" (by decide),
    (C9_organizer_join dirA [recB, recC]).2.2 recC (by decide) (by decide)⟩

/-- C10: the identifier parser does not deduplicate its token list
(first conjunct: it distributes over concatenation, so a token appearing
twice survives twice), and the collector fetches and concatenates a
duplicated event id twice (second conjunct); nevertheless the run's
outcome — total-failure report, crash, or final table — is exactly the
one produced from the same identifier list with duplicates removed
(third conjunct), because each group's argmax candidate and the group-key
set are unchanged by first-occurrence duplicate removal. -/
theorem C10_duplicate_event_ids_harmless :
    (∀ raw1 raw2 : List String,
      parseEventIds (raw1 ++ raw2) = parseEventIds raw1 ++ parseEventIds raw2) ∧
    (∀ (srv : String → Server) (fuel : Nat) (ids1 ids2 : List String),
      collectEvents srv fuel (ids1 ++ ids2) =
        collectEvents srv fuel ids1 ++ collectEvents srv fuel ids2) ∧
    (∀ (orgRows : List (String × String)) (srv : String → Server) (fuel : Nat)
        (ids : List String),
      runPipeline orgRows srv fuel ids =
        runPipeline orgRows srv fuel (firstDedup ids)) := by
  refine ⟨?_, ?_, ?_⟩
  · intro raw1 raw2
    simp [parseEventIds, List.filterMap_append]
  · intro srv fuel ids1 ids2
    simp [collectEvents, List.flatMap_append]
  · intro orgRows srv fuel ids
    have hempty : (collectEvents srv fuel ids = []) ↔
        (collectEvents srv fuel (firstDedup ids) = []) := by
      simp only [collectEvents, List.flatMap_eq_nil_iff]
      constructor
      · intro h e he
        exact h e ((mem_firstDedup e ids).mp he)
      · intro h e he
        exact h e ((mem_firstDedup e ids).mpr he)
    have hded : dedupeByRoom (joinOrganizer orgRows (collectEvents srv fuel ids)) =
        dedupeByRoom
          (joinOrganizer orgRows (collectEvents srv fuel (firstDedup ids))) := by
      unfold collectEvents
      rw [joinOrganizer_flatMap, joinOrganizer_flatMap]
      exact dedupeByRoom_flatMap_firstDedup
        (fun e => joinOrganizer orgRows (fetch_all_room_data (srv e) fuel)) ids
    simp only [runPipeline]
    by_cases hc : collectEvents srv fuel ids = []
    · rw [if_pos hc, if_pos (hempty.mp hc)]
    · rw [if_neg hc, if_neg (fun h2 => hc (hempty.mpr h2)), hded]

end SRApp
